import Mathlib

/-!
Verification of the ntfy-client streaming subscription, history store and
recent-topics logic (src/src/App.jsx) against its natural-language
specification.

The embedding models the stateful pieces of the App component as pure
functions over an explicit state record:

* a decoded stream record (the result of JSON.parse on one line) becomes
  NtfyRecord, whose fields are Option-valued because the incoming JSON may
  omit any of them; the JavaScript truthiness test on a string-valued field
  is the function truthy;
* localStorage together with JSON.parse / JSON.stringify becomes a map from
  key strings to Stored values, where Stored.absent models a missing key,
  Stored.corrupt models a stored string that JSON.parse throws on, and
  Stored.good v models a stored string that parses to v;
* the React state (messages, connected, errorInfo) together with the
  history part of localStorage becomes AppState;
* the byte-to-text boundary of the read loop is modelled at the text level
  (lists of characters), exactly as the source manipulates the decoded
  text: buffer += chunk; lines = buffer.split('\n'); buffer = lines.pop().
-/

set_option maxRecDepth 8000

/-- Result of JSON.parse on one stream line: all fields are optional because
the JSON object may omit any of them.  Mirrors the parsedData object of
src/src/App.jsx line 173. -/
structure NtfyRecord where
  id : Option String := none
  message : Option String := none
  title : Option String := none
  time : Option Int := none
  tags : Option (List String) := none
deriving DecidableEq, Repr

/-- JavaScript truthiness of an optional string field: an absent field and
the empty string are falsy, every other string is truthy.  Used for the
guard parsedData.id && parsedData.message (App.jsx line 174). -/
def truthy : Option String → Bool
  | none => false
  | some s => s ≠ ""

/-- One localStorage slot as seen through JSON.parse: the key may be absent
(getItem returns null), hold a string JSON.parse throws on, or hold a
string that parses to a value v. -/
inductive Stored (α : Type) where
  | absent
  | corrupt
  | good (v : α)
deriving DecidableEq, Repr

/-- LocalStorage key for a topic's history (App.jsx lines 125, 183, 349). -/
def historyKey (topic : String) : String := "ntfy-history-" ++ topic

/-- Client state relevant to the subscription loop: the in-memory message
list, the connection flag, the error banner, and the history part of
localStorage (keyed by full localStorage key). -/
structure AppState where
  messages : List NtfyRecord
  connected : Bool
  errorInfo : Option String
  histStore : String → Stored (List NtfyRecord)

/-- Write a value under a key, leaving all other keys unchanged
(localStorage.setItem). -/
def setKey (store : String → Stored (List NtfyRecord)) (k : String)
    (v : Stored (List NtfyRecord)) : String → Stored (List NtfyRecord) :=
  fun q => if q = k then v else store q

/-- Delete a key, leaving all other keys unchanged
(localStorage.removeItem). -/
def removeKey (store : String → Stored (List NtfyRecord)) (k : String) :
    String → Stored (List NtfyRecord) :=
  fun q => if q = k then Stored.absent else store q

/-- JavaScript String.prototype.trim: strip whitespace from both ends.
Lean's built-in String.trim is avoided because its Substring helpers do not
reduce inside the kernel; this structural version has the same meaning. -/
def jsTrim (s : String) : String :=
  ⟨((s.data.dropWhile Char.isWhitespace).reverse.dropWhile Char.isWhitespace).reverse⟩

/-- Processing of one valid parsed record by the subscribe loop, App.jsx
lines 174-194: if id and message are both truthy, and no message with the
same id is already in the history, prepend the record, cap the history at
50 entries, and persist the new history under the topic's key; otherwise
leave the state unchanged. -/
def processRecord (topic : String) (st : AppState) (parsedData : NtfyRecord) :
    AppState :=
  if truthy parsedData.id && truthy parsedData.message then
    if st.messages.any (fun msg => msg.id == parsedData.id) then st
    else
      let newMessages := (parsedData :: st.messages).take 50
      { st with
          messages := newMessages,
          histStore := setKey st.histStore (historyKey topic)
            (Stored.good newMessages) }
  else st

/-- One framed line as the loop body sees it, App.jsx lines 170-201: either
blank after trimming (skipped before JSON.parse), or a line JSON.parse
throws on (logged and skipped by the catch), or a successfully parsed
record. -/
inductive ParsedLine where
  | blank
  | malformed
  | record (r : NtfyRecord)

/-- Body of the for-loop over complete lines, App.jsx lines 170-201. -/
def processLine (topic : String) (st : AppState) : ParsedLine → AppState
  | ParsedLine.blank => st
  | ParsedLine.malformed => st
  | ParsedLine.record r => processRecord topic st r

/-- Loading a topic's persisted history, App.jsx lines 123-130: missing key
loads as the empty list, a JSON.parse failure is caught and also yields the
empty list, otherwise the parsed list is used. -/
def loadHistory : Stored (List NtfyRecord) → List NtfyRecord
  | Stored.absent => []
  | Stored.corrupt => []
  | Stored.good v => v

/-- Loading the persisted recent-topics list, App.jsx lines 80-88: same
degradation to the empty list on absence or parse failure. -/
def loadPreviousTopics : Stored (List String) → List String
  | Stored.absent => []
  | Stored.corrupt => []
  | Stored.good v => v

/-- Removal of a single trailing slash from the server URL, App.jsx line
132 (the regex replace of a final slash). -/
def stripTrailingSlash (server : String) : String :=
  if server.endsWith "/" then server.dropRight 1 else server

/-- Front portion of subscribe, App.jsx lines 117-133: the empty-topic
validation (connected set to false, a validation error reported, no history
load and no request) and, on a non-empty topic, the reload of the topic's
persisted history and the construction of the stream URL.  The second
component is the URL of the request that will be issued, or none when no
request is attempted. -/
def subscribeStart (server topic : String) (st : AppState) :
    AppState × Option String :=
  if jsTrim topic = "" then
    ({ st with connected := false, errorInfo := some "Topic cannot be empty." },
      none)
  else
    ({ st with messages := loadHistory (st.histStore (historyKey topic)) },
      some (stripTrailingSlash server ++ "/" ++ topic ++ "/json"))

/-- How the read loop ended: the reader reported done (server closed), or
an exception with the given name was thrown (abort() surfaces as an
exception named AbortError). -/
inductive StreamEnd where
  | closed
  | failed (name : String)

/-- Status updates performed when the read loop exits, App.jsx lines
156-164 (the done branch, guarded by the abort signal) and lines 203-209
(the catch branch, guarded by the exception name). -/
def loopExit (aborted : Bool) (e : StreamEnd) (st : AppState) : AppState :=
  match e with
  | StreamEnd.closed =>
      if aborted then st
      else { st with connected := false, errorInfo := some "Connection closed." }
  | StreamEnd.failed name =>
      if name = "AbortError" then st
      else { st with
              connected := false,
              errorInfo := some "Connection failed. Check console." }

/-- Update of the recent-topics list on topic use, App.jsx lines 229-233:
the trimmed topic is put in front, every other occurrence of it is filtered
out, and the list is capped at 10 entries. -/
def recordTopicUse (topic : String) (prevTopics : List String) : List String :=
  (jsTrim topic :: prevTopics.filter (fun t => t ≠ jsTrim topic)).take 10

/-- Clearing of the current topic's messages, App.jsx lines 347-350: the
in-memory list is emptied and the persisted entry is removed. -/
def handleClearMessages (topic : String) (st : AppState) : AppState :=
  { st with
      messages := [],
      histStore := removeKey st.histStore (historyKey topic) }

/-- Invariant of the in-memory history: at most 50 entries, pairwise
distinct ids. -/
def historyInv (msgs : List NtfyRecord) : Prop :=
  msgs.length ≤ 50 ∧ (msgs.map (fun m => m.id)).Nodup

/-- Newline splitting of a character sequence, matching the semantics of
JavaScript buffer.split('\n') (App.jsx line 167): on an input with k
newline characters the result has k+1 segments, empty segments included. -/
def splitNewline : List Char → List (List Char)
  | [] => [[]]
  | c :: cs =>
    if c = '\n' then [] :: splitNewline cs
    else
      match splitNewline cs with
      | [] => [[c]]
      | l :: ls => (c :: l) :: ls

/-- One iteration of the framing part of the read loop, App.jsx lines
166-168: append the chunk to the buffer, split on newline, keep the popped
trailing segment as the new buffer and hand the complete segments to the
line loop.  Returns (complete lines, new buffer). -/
def readChunkStep (buffer chunk : List Char) : List (List Char) × List Char :=
  let lines := splitNewline (buffer ++ chunk)
  (lines.dropLast, lines.getLastD [])

/-- Direct recursive form of one framing pass over a full text: first
component the complete lines, second component the trailing segment.  Used
to reason about readChunkStep. -/
def frame : List Char → List (List Char) × List Char
  | [] => ([], [])
  | c :: cs =>
    if c = '\n' then ([] :: (frame cs).1, (frame cs).2)
    else
      match frame cs with
      | ([], buf) => ([], c :: buf)
      | (l :: ls, buf) => ((c :: l) :: ls, buf)

/-- Chunk-by-chunk run of the framing loop: the accumulator carries the
complete lines produced so far and the current buffer. -/
def feedChunk (acc : List (List Char) × List Char) (chunk : List Char) :
    List (List Char) × List Char :=
  let r := readChunkStep acc.2 chunk
  (acc.1 ++ r.1, r.2)

/-- Concrete record used to exhibit eviction of an old id by the 50-entry
cap. -/
def mkRec (n : Nat) : NtfyRecord := { id := some (toString n), message := some "m" }

/-- Fifty-one records with pairwise distinct ids 0..50. -/
def evictStream : List NtfyRecord := (List.range 51).map mkRec

/-- Initial client state: no messages, disconnected, no error, empty
store. -/
def initialState : AppState := ⟨[], false, none, fun _ => Stored.absent⟩

theorem splitNewline_eq_frame (cs : List Char) :
    splitNewline cs = (frame cs).1 ++ [(frame cs).2] := by
  induction cs with
  | nil => rfl
  | cons c cs ih =>
    rcases hf : frame cs with ⟨ls, buf⟩
    rw [hf] at ih
    by_cases h : c = '\n'
    · simp [splitNewline, frame, h, ih, hf]
    · cases ls with
      | nil => simp [splitNewline, frame, h, ih, hf]
      | cons l ls2 => simp [splitNewline, frame, h, ih, hf]

theorem readChunkStep_eq_frame (b c : List Char) :
    readChunkStep b c = frame (b ++ c) := by
  simp [readChunkStep, splitNewline_eq_frame, List.dropLast_concat,
    List.getLastD_concat]

theorem frame_append (x y : List Char) :
    frame (x ++ y)
      = ((frame x).1 ++ (frame ((frame x).2 ++ y)).1,
         (frame ((frame x).2 ++ y)).2) := by
  induction x with
  | nil => simp [frame]
  | cons c x ih =>
    rcases hf : frame x with ⟨ls, buf⟩
    rw [hf] at ih
    by_cases h : c = '\n'
    · simp [frame, h, ih, hf]
    · cases ls with
      | nil =>
        rcases hA : frame (buf ++ y) with ⟨as, ab⟩
        rw [hA] at ih
        cases as with
        | nil => simp [frame, h, ih, hf, hA]
        | cons a as2 => simp [frame, h, ih, hf, hA]
      | cons l ls2 => simp [frame, h, ih, hf, List.append_assoc]

theorem frame_snd_no_newline (cs : List Char) : '\n' ∉ (frame cs).2 := by
  induction cs with
  | nil => simp [frame]
  | cons c cs ih =>
    rcases hf : frame cs with ⟨ls, buf⟩
    rw [hf] at ih
    by_cases h : c = '\n'
    · simp [frame, h, hf]
      exact ih
    · cases ls with
      | nil =>
        simp [frame, h, hf]
        exact ⟨fun e => h e.symm, ih⟩
      | cons l ls2 =>
        simp [frame, h, hf]
        exact ih

theorem frame_of_no_newline (cs : List Char) (h : '\n' ∉ cs) :
    frame cs = ([], cs) := by
  induction cs with
  | nil => rfl
  | cons c cs ih =>
    have hc : ¬ (c = '\n') := by
      intro e
      exact h (by simp [e])
    have hcs : '\n' ∉ cs := fun m => h (List.mem_cons_of_mem _ m)
    simp [frame, hc, ih hcs]

theorem foldl_feedChunk (chunks : List (List Char)) :
    ∀ (done : List (List Char)) (buf : List Char), '\n' ∉ buf →
      List.foldl feedChunk (done, buf) chunks
        = (done ++ (frame (buf ++ chunks.flatten)).1,
           (frame (buf ++ chunks.flatten)).2) := by
  induction chunks with
  | nil =>
    intro done buf hbuf
    simp [frame_of_no_newline buf hbuf]
  | cons c rest ih =>
    intro done buf hbuf
    have hstep : feedChunk (done, buf) c
        = (done ++ (frame (buf ++ c)).1, (frame (buf ++ c)).2) := by
      simp [feedChunk, readChunkStep_eq_frame]
    rw [List.foldl_cons, hstep,
      ih (done ++ (frame (buf ++ c)).1) ((frame (buf ++ c)).2)
        (frame_snd_no_newline (buf ++ c))]
    rw [List.flatten_cons, ← List.append_assoc, frame_append (buf ++ c) rest.flatten]
    simp [List.append_assoc]

/-- Claim C2: the line framing of the read loop is chunking-invariant.  For every
text stream and every way of splitting it into chunks, running the
buffer-append / split-on-newline / pop-trailing-segment step of App.jsx
lines 166-168 chunk by chunk from an empty buffer produces exactly the same
sequence of complete lines, and the same final buffer, as running a single
step on the whole stream at once.  In particular a record split across
chunk boundaries is framed exactly once, when its terminating newline
arrives, and several records arriving in one chunk each appear as separate
complete lines. -/
theorem claim2_chunking_invariance (chunks : List (List Char)) :
    List.foldl feedChunk ([], []) chunks = readChunkStep [] chunks.flatten := by
  rw [readChunkStep_eq_frame, foldl_feedChunk chunks [] [] (by simp)]
  simp

theorem string_append_left_cancel {s a b : String} (h : s ++ a = s ++ b) :
    a = b := by
  apply String.ext
  have hd : (s ++ a).data = (s ++ b).data := congrArg String.data h
  rw [String.data_append, String.data_append] at hd
  exact List.append_cancel_left hd

theorem historyKey_inj {a b : String} (h : historyKey a = historyKey b) :
    a = b :=
  string_append_left_cancel h

/-- Claim C3: a valid incoming record whose id equals the id of an entry already
present in the history leaves the state completely unchanged: no duplicate
entry, no reordering, no store write.  This holds for every record, valid
or not, because the duplicate test of App.jsx line 178 short-circuits the
update. -/
theorem claim3_duplicate_id_noop (topic : String) (st : AppState)
    (r : NtfyRecord) (h : ∃ m ∈ st.messages, m.id = r.id) :
    processRecord topic st r = st := by
  by_cases hv : (truthy r.id && truthy r.message) = true
  · obtain ⟨m, hm, hid⟩ := h
    have hdup : st.messages.any (fun msg => msg.id == r.id) = true :=
      List.any_eq_true.mpr ⟨m, hm, by simp [hid]⟩
    simp [processRecord, hv, hdup]
  · simp [processRecord, Bool.eq_false_iff.mpr hv]

theorem claim3_duplicate_id_noop_witness :
    processRecord "alerts"
      ⟨[{ id := some "1", message := some "hi" }], true, none,
        fun _ => Stored.absent⟩
      { id := some "1", message := some "hi again" }
    = ⟨[{ id := some "1", message := some "hi" }], true, none,
        fun _ => Stored.absent⟩ :=
  claim3_duplicate_id_noop "alerts" _ _ (by decide)

/-- Claim C5: when the read loop exits because of an explicit cancellation —
either the reader reports done while the abort signal is set, or the read
throws the AbortError produced by abort() — no user-visible report is made
and the state is untouched; when the loop exits for any other reason the
corresponding report ("Connection closed." for a server close, the generic
connection-failure text for any other exception) is surfaced and connected
becomes false (App.jsx lines 156-164 and 203-209). -/
theorem claim5_cancellation_suppression (st : AppState) (aborted : Bool)
    (name : String) (h : name ≠ "AbortError") :
    loopExit true StreamEnd.closed st = st ∧
    loopExit aborted (StreamEnd.failed "AbortError") st = st ∧
    loopExit false StreamEnd.closed st
      = { st with connected := false, errorInfo := some "Connection closed." } ∧
    loopExit aborted (StreamEnd.failed name) st
      = { st with
            connected := false,
            errorInfo := some "Connection failed. Check console." } := by
  refine ⟨rfl, by simp [loopExit], rfl, by simp [loopExit, h]⟩

theorem claim5_cancellation_suppression_witness :
    loopExit true StreamEnd.closed initialState = initialState ∧
    loopExit false (StreamEnd.failed "AbortError") initialState = initialState ∧
    loopExit false StreamEnd.closed initialState
      = { initialState with
            connected := false, errorInfo := some "Connection closed." } ∧
    loopExit false (StreamEnd.failed "TypeError") initialState
      = { initialState with
            connected := false,
            errorInfo := some "Connection failed. Check console." } :=
  claim5_cancellation_suppression initialState false "TypeError" (by decide)

/-- Claim C6: subscribing with a topic that is empty (or blank after trimming)
fails immediately: connected is reported false, the validation error
"Topic cannot be empty." is surfaced, the in-memory history is left alone
(not reloaded from the store), and no request URL is produced, so no
connection is attempted (App.jsx lines 117-121). -/
theorem claim6_empty_topic_validation (server topic : String) (st : AppState)
    (h : jsTrim topic = "") :
    (subscribeStart server topic st).1.connected = false ∧
    (subscribeStart server topic st).1.errorInfo
      = some "Topic cannot be empty." ∧
    (subscribeStart server topic st).1.messages = st.messages ∧
    (subscribeStart server topic st).2 = none := by
  simp [subscribeStart, h]

theorem claim6_empty_topic_validation_witness :
    (subscribeStart "https://ntfy.sh" "" initialState).1.connected = false ∧
    (subscribeStart "https://ntfy.sh" "" initialState).1.errorInfo
      = some "Topic cannot be empty." ∧
    (subscribeStart "https://ntfy.sh" "" initialState).1.messages
      = initialState.messages ∧
    (subscribeStart "https://ntfy.sh" "" initialState).2 = none :=
  claim6_empty_topic_validation "https://ntfy.sh" "" initialState (by decide)

/-- Claim C7: a decoded record is accepted into the history only if both its id
and its message field are truthy — a record missing either is discarded
with no state change and no error surfaced — and a line that fails to
parse as JSON leaves the state unchanged and does not abort the loop: the
remaining lines are processed exactly as if the bad line had not been there
(App.jsx lines 170-201). -/
theorem claim7_record_validation (topic : String) (st : AppState)
    (r : NtfyRecord) (rest : List ParsedLine) :
    ((truthy r.id && truthy r.message) = false →
      processLine topic st (ParsedLine.record r) = st) ∧
    processLine topic st ParsedLine.malformed = st ∧
    List.foldl (processLine topic) st (ParsedLine.malformed :: rest)
      = List.foldl (processLine topic) st rest := by
  refine ⟨fun h => ?_, rfl, rfl⟩
  simp [processLine, processRecord, h]

theorem claim7_record_validation_witness :
    (processLine "alerts" initialState
        (ParsedLine.record { id := some "1" }) = initialState) ∧
    processLine "alerts" initialState ParsedLine.malformed = initialState :=
  ⟨(claim7_record_validation "alerts" initialState { id := some "1" } []).1
      (by decide),
    (claim7_record_validation "alerts" initialState { id := some "1" } []).2.1⟩

/-- Claim C8: loading persisted state never throws: a topic history loads as the
empty list both when nothing is stored under the topic's key and when the
stored JSON is unparseable, and as the stored list otherwise; the
recent-topics list degrades to empty in the same two failure cases
(App.jsx lines 123-130 and 80-88). -/
theorem claim8_load_degrades_to_empty :
    loadHistory Stored.absent = [] ∧
    loadHistory Stored.corrupt = [] ∧
    (∀ v : List NtfyRecord, loadHistory (Stored.good v) = v) ∧
    loadPreviousTopics Stored.absent = [] ∧
    loadPreviousTopics Stored.corrupt = [] ∧
    (∀ ts : List String, loadPreviousTopics (Stored.good ts) = ts) :=
  ⟨rfl, rfl, fun _ => rfl, rfl, rfl, fun _ => rfl⟩

/-- Claim C9: clearing the history of a topic empties the in-memory message list
and removes the persisted entry under that topic's key, while the persisted
history of every other topic is untouched (App.jsx lines 347-350). -/
theorem claim9_clear_frame (topic other : String) (st : AppState)
    (h : other ≠ topic) :
    (handleClearMessages topic st).messages = [] ∧
    (handleClearMessages topic st).histStore (historyKey topic)
      = Stored.absent ∧
    (handleClearMessages topic st).histStore (historyKey other)
      = st.histStore (historyKey other) := by
  refine ⟨rfl, by simp [handleClearMessages, removeKey], ?_⟩
  have hk : historyKey other ≠ historyKey topic := fun e => h (historyKey_inj e)
  simp [handleClearMessages, removeKey, hk]

theorem claim9_clear_frame_witness :
    (handleClearMessages "alerts" initialState).messages = [] ∧
    (handleClearMessages "alerts" initialState).histStore
        (historyKey "alerts") = Stored.absent ∧
    (handleClearMessages "alerts" initialState).histStore
        (historyKey "news") = initialState.histStore (historyKey "news") :=
  claim9_clear_frame "alerts" "news" initialState (by decide)

theorem cons_take_take {α : Type} (n : Nat) (x : α) (l : List α) :
    (x :: l.take (n + 1)).take (n + 1) = (x :: l).take (n + 1) := by
  rw [List.take_succ_cons, List.take_succ_cons, List.take_take,
    min_eq_left (Nat.le_succ n)]

theorem foldProcess_spec (topic : String) (rest : List NtfyRecord) :
    ∀ (done : List NtfyRecord) (st : AppState),
      st.messages = done.reverse.take 50 →
      (∀ r ∈ rest, (truthy r.id && truthy r.message) = true) →
      ((done ++ rest).map (fun r => r.id)).Nodup →
      (List.foldl (processRecord topic) st rest).messages
          = ((done ++ rest).reverse).take 50 ∧
      ((st.histStore (historyKey topic) = Stored.good st.messages ∨ rest ≠ []) →
        (List.foldl (processRecord topic) st rest).histStore (historyKey topic)
          = Stored.good (List.foldl (processRecord topic) st rest).messages) := by
  induction rest with
  | nil =>
    intro done st hmsg hval hnodup
    constructor
    · simpa using hmsg
    · intro h
      rcases h with h | h
      · simpa using h
      · exact absurd rfl h
  | cons r rest ih =>
    intro done st hmsg hval hnodup
    have hdup : st.messages.any (fun msg => msg.id == r.id) = false := by
      rw [List.any_eq_false]
      intro m hm
      simp only [beq_iff_eq]
      intro hid
      have hmdone : m ∈ done := by
        rw [hmsg] at hm
        exact List.mem_reverse.mp (List.mem_of_mem_take hm)
      have h1 : r.id ∈ done.map (fun q => q.id) :=
        List.mem_map.mpr ⟨m, hmdone, hid⟩
      have h2 : r.id ∈ (r :: rest).map (fun q => q.id) := by simp
      rw [List.map_append, List.nodup_append] at hnodup
      exact hnodup.2.2 h1 h2
    have hvr : (truthy r.id && truthy r.message) = true := hval r (by simp)
    have hstep : processRecord topic st r
        = { st with
              messages := (r :: st.messages).take 50,
              histStore := setKey st.histStore (historyKey topic)
                (Stored.good ((r :: st.messages).take 50)) } := by
      simp [processRecord, hvr, hdup]
    have hmsg2 : (processRecord topic st r).messages
        = ((done ++ [r]).reverse).take 50 := by
      rw [hstep]
      show (r :: st.messages).take 50 = _
      rw [hmsg]
      have h50 : (r :: List.take 50 done.reverse).take 50
          = (r :: done.reverse).take 50 := cons_take_take 49 r done.reverse
      rw [h50, List.reverse_append]
      simp
    have hstore2 : (processRecord topic st r).histStore (historyKey topic)
        = Stored.good (processRecord topic st r).messages := by
      rw [hstep]
      simp [setKey]
    have hval2 : ∀ q ∈ rest, (truthy q.id && truthy q.message) = true :=
      fun q hq => hval q (List.mem_cons_of_mem _ hq)
    have hnodup2 : (((done ++ [r]) ++ rest).map (fun q => q.id)).Nodup := by
      rw [List.append_assoc, List.singleton_append]
      exact hnodup
    obtain ⟨ihm, ihs⟩ :=
      ih (done ++ [r]) (processRecord topic st r) hmsg2 hval2 hnodup2
    constructor
    · rw [List.foldl_cons, ihm, List.append_assoc, List.singleton_append]
    · intro _
      rw [List.foldl_cons]
      exact ihs (Or.inl hstore2)

/-- Claim C1: delivering any sequence of valid records with pairwise-distinct ids
to the subscribe loop, starting from an empty history, yields exactly those
records most-recent-first (each new record prepended) truncated to the 50
newest, and after every single append the history persisted under the
topic's key equals the in-memory history of that moment (App.jsx lines
176-194). -/
theorem claim1_history_most_recent_first (topic : String)
    (records : List NtfyRecord) (c0 : Bool) (e0 : Option String)
    (store0 : String → Stored (List NtfyRecord))
    (hval : ∀ r ∈ records, (truthy r.id && truthy r.message) = true)
    (hids : (records.map (fun r => r.id)).Nodup) :
    (List.foldl (processRecord topic) ⟨[], c0, e0, store0⟩ records).messages
        = records.reverse.take 50 ∧
    ∀ n, 0 < n → n ≤ records.length →
      (List.foldl (processRecord topic) ⟨[], c0, e0, store0⟩
          (records.take n)).histStore (historyKey topic)
        = Stored.good
            (List.foldl (processRecord topic) ⟨[], c0, e0, store0⟩
              (records.take n)).messages := by
  constructor
  · have h := (foldProcess_spec topic records [] ⟨[], c0, e0, store0⟩ rfl hval
      (by simpa using hids)).1
    simpa using h
  · intro n hn hle
    have hval2 : ∀ r ∈ records.take n, (truthy r.id && truthy r.message) = true :=
      fun r hr => hval r (List.mem_of_mem_take hr)
    have hids2 : ((records.take n).map (fun r => r.id)).Nodup := by
      rw [List.map_take]
      exact List.Sublist.nodup (List.take_sublist n _) hids
    have hne : records.take n ≠ [] := by
      rw [Ne, List.take_eq_nil_iff]
      intro hcon
      rcases hcon with h0 | h0
      · omega
      · rw [h0] at hle
        simp at hle
        omega
    exact (foldProcess_spec topic (records.take n) [] ⟨[], c0, e0, store0⟩ rfl
      hval2 (by simpa using hids2)).2 (Or.inr hne)

/-- Two concrete valid records used by the C1 witness. -/
def witnessRecords : List NtfyRecord :=
  [{ id := some "1", message := some "one" },
   { id := some "2", message := some "two" }]

theorem claim1_history_most_recent_first_witness :
    (List.foldl (processRecord "alerts")
        ⟨[], false, none, fun _ => Stored.absent⟩ witnessRecords).messages
      = witnessRecords.reverse.take 50 ∧
    ∀ n, 0 < n → n ≤ witnessRecords.length →
      (List.foldl (processRecord "alerts")
          ⟨[], false, none, fun _ => Stored.absent⟩
          (witnessRecords.take n)).histStore (historyKey "alerts")
        = Stored.good
            (List.foldl (processRecord "alerts")
              ⟨[], false, none, fun _ => Stored.absent⟩
              (witnessRecords.take n)).messages :=
  claim1_history_most_recent_first "alerts" witnessRecords false none
    (fun _ => Stored.absent) (by decide) (by decide)

theorem take_ten_cons (x : String) (l : List String) :
    (x :: l).take 10 = x :: l.take 9 := rfl

theorem foldTopicUse_spec (ts : List String) :
    ∀ (done acc : List String),
      acc = done.reverse.take 10 →
      (∀ t ∈ ts, jsTrim t = t) →
      (done ++ ts).Nodup →
      List.foldl (fun acc t => recordTopicUse t acc) acc ts
        = ((done ++ ts).reverse).take 10 := by
  induction ts with
  | nil =>
    intro done acc hacc htrim hnodup
    simpa using hacc
  | cons t ts ih =>
    intro done acc hacc htrim hnodup
    have htt : jsTrim t = t := htrim t (by simp)
    have hnotin : ∀ x ∈ acc, ¬ (x = t) := by
      intro x hx he
      have hxdone : x ∈ done := by
        rw [hacc] at hx
        exact List.mem_reverse.mp (List.mem_of_mem_take hx)
      rw [List.nodup_append] at hnodup
      exact hnodup.2.2 hxdone (by simp [← he])
    have hfilter : acc.filter (fun x => x ≠ t) = acc := by
      rw [List.filter_eq_self]
      intro a ha
      simpa using hnotin a ha
    have hstep : recordTopicUse t acc = ((done ++ [t]).reverse).take 10 := by
      rw [recordTopicUse, htt, hfilter, hacc]
      have h10 : (t :: List.take 10 done.reverse).take 10
          = (t :: done.reverse).take 10 := cons_take_take 9 t done.reverse
      rw [h10, List.reverse_append]
      simp
    have htrim2 : ∀ q ∈ ts, jsTrim q = q :=
      fun q hq => htrim q (List.mem_cons_of_mem _ hq)
    have hnodup2 : ((done ++ [t]) ++ ts).Nodup := by
      rw [List.append_assoc, List.singleton_append]
      exact hnodup
    rw [List.foldl_cons,
      ih (done ++ [t]) (recordTopicUse t acc) hstep htrim2 hnodup2,
      List.append_assoc, List.singleton_append]

/-- Claim C4 counterexample: applying recordTopicUse with topics a, b, c in that
order and then with a again, starting from an empty list, does not yield
the order [a, b, c]; the actual result is [a, c, b], because each use moves
the used topic to the front and otherwise preserves most-recent-first
order. -/
theorem claim4_counterexample :
    ¬ (List.foldl (fun acc t => recordTopicUse t acc) [] ["a", "b", "c", "a"]
        = ["a", "b", "c"]) := by decide

/-- Claim C4 (amended): recordTopicUse moves the trimmed used topic to the front
of the recent-topics list (inserting it if absent), keeps entries unique,
and truncates the list to 10; applying it to topics [a, b, c] in that order
and then to a again yields the order [a, c, b] (a moved to the front, the
remaining order preserved); and applying it to distinct topics in sequence
retains only the most recent 10, most-recent-first (App.jsx lines
229-233). -/
theorem claim4_recent_topics_mru :
    (∀ topic l, (recordTopicUse topic l).head? = some (jsTrim topic)) ∧
    (∀ (topic : String) (l : List String), l.Nodup →
      (recordTopicUse topic l).Nodup) ∧
    (∀ topic l, (recordTopicUse topic l).length ≤ 10) ∧
    (∀ topic l x, x ∈ recordTopicUse topic l → x = jsTrim topic ∨ x ∈ l) ∧
    (List.foldl (fun acc t => recordTopicUse t acc) [] ["a", "b", "c", "a"]
        = ["a", "c", "b"]) ∧
    (∀ ts : List String, (∀ t ∈ ts, jsTrim t = t) → ts.Nodup →
      List.foldl (fun acc t => recordTopicUse t acc) [] ts
        = ts.reverse.take 10) := by
  refine ⟨?_, ?_, ?_, ?_, by decide, ?_⟩
  · intro topic l
    rw [recordTopicUse, take_ten_cons]
    rfl
  · intro topic l hl
    apply List.Sublist.nodup (List.take_sublist 10 _)
    rw [List.nodup_cons]
    refine ⟨fun hmem => ?_, hl.filter _⟩
    have hp := (List.mem_filter.mp hmem).2
    simp at hp
  · intro topic l
    exact List.length_take_le 10 _
  · intro topic l x hx
    have hmem := List.mem_of_mem_take hx
    rcases List.mem_cons.mp hmem with h | h
    · exact Or.inl h
    · exact Or.inr (List.mem_filter.mp h).1
  · intro ts htrim hnodup
    have h := foldTopicUse_spec ts [] [] rfl htrim (by simpa using hnodup)
    simpa using h

theorem claim4_recent_topics_mru_witness :
    (recordTopicUse "news" ["sport", "news", "tech"]).Nodup ∧
    List.foldl (fun acc t => recordTopicUse t acc) []
        ["t0", "t1", "t2", "t3", "t4", "t5", "t6", "t7", "t8", "t9", "t10"]
      = ["t10", "t9", "t8", "t7", "t6", "t5", "t4", "t3", "t2", "t1"] :=
  ⟨claim4_recent_topics_mru.2.1 "news" ["sport", "news", "tech"] (by decide),
    (claim4_recent_topics_mru.2.2.2.2.2
      ["t0", "t1", "t2", "t3", "t4", "t5", "t6", "t7", "t8", "t9", "t10"]
      (by decide) (by decide)).trans (by decide)⟩

/-- Claim C10: every history operation preserves the invariant that the in-memory
history holds at most 50 entries with pairwise-distinct ids — the line
loop (including a valid append), loading a well-formed persisted history,
loading an absent or corrupt one, and clearing.  Deduplication, however, is
checked only against the currently retained entries: after fifty-one
records with ids 0..50 the entry with id 0 has been evicted by the cap, so
a fresh record with id 0 is accepted a second time and becomes the newest
entry (App.jsx lines 176-183 and 347-350). -/
theorem claim10_invariant_and_eviction (topic : String) (st : AppState)
    (l : ParsedLine) (v : List NtfyRecord)
    (hst : historyInv st.messages) (hv : historyInv v) :
    historyInv (processLine topic st l).messages ∧
    historyInv (loadHistory (Stored.good v)) ∧
    historyInv (loadHistory Stored.absent) ∧
    historyInv (loadHistory Stored.corrupt) ∧
    historyInv (handleClearMessages topic st).messages ∧
    (evictStream.foldl (processRecord "alerts") initialState).messages.all
        (fun m => m.id ≠ some "0") = true ∧
    (processRecord "alerts"
        (evictStream.foldl (processRecord "alerts") initialState)
        (mkRec 0)).messages.head? = some (mkRec 0) := by
  refine ⟨?_, hv, by simp [loadHistory, historyInv],
    by simp [loadHistory, historyInv],
    by simp [handleClearMessages, historyInv], by decide, by decide⟩
  cases l with
  | blank => exact hst
  | malformed => exact hst
  | record r =>
    show historyInv (processRecord topic st r).messages
    by_cases hvr : (truthy r.id && truthy r.message) = true
    · by_cases hdup : st.messages.any (fun msg => msg.id == r.id) = true
      · have : (processRecord topic st r).messages = st.messages := by
          simp [processRecord, hvr, hdup]
        rw [this]
        exact hst
      · have hdupf : st.messages.any (fun msg => msg.id == r.id) = false := by
          simpa using hdup
        have hnotin : r.id ∉ st.messages.map (fun m => m.id) := by
          intro hmem
          obtain ⟨m, hm, heq⟩ := List.mem_map.mp hmem
          have hq := List.any_eq_false.mp hdupf m hm
          simp [heq] at hq
        have hmsgs : (processRecord topic st r).messages
            = (r :: st.messages).take 50 := by
          simp [processRecord, hvr, hdupf]
        rw [hmsgs]
        constructor
        · exact List.length_take_le 50 _
        · rw [List.map_take]
          apply List.Sublist.nodup (List.take_sublist 50 _)
          rw [List.map_cons, List.nodup_cons]
          exact ⟨hnotin, hst.2⟩
    · have : (processRecord topic st r).messages = st.messages := by
        simp [processRecord, Bool.eq_false_iff.mpr hvr]
      rw [this]
      exact hst

theorem claim10_invariant_and_eviction_witness :
    historyInv (processLine "alerts" initialState ParsedLine.malformed).messages ∧
    historyInv (loadHistory (Stored.good [])) ∧
    historyInv (loadHistory Stored.absent) ∧
    historyInv (loadHistory Stored.corrupt) ∧
    historyInv (handleClearMessages "alerts" initialState).messages ∧
    (evictStream.foldl (processRecord "alerts") initialState).messages.all
        (fun m => m.id ≠ some "0") = true ∧
    (processRecord "alerts"
        (evictStream.foldl (processRecord "alerts") initialState)
        (mkRec 0)).messages.head? = some (mkRec 0) :=
  claim10_invariant_and_eviction "alerts" initialState ParsedLine.malformed []
    (by constructor <;> decide) (by constructor <;> decide)
